import Mathlib

/-!
Verification of the image-reference parser and container model of the
`flow` repository (`src/container.rs`). Strings are modelled as `List Char`;
Rust's `str::split_once` (split at the first occurrence of a character) and
`str::rsplit_once` (split at the last occurrence) are modelled by `splitOnce`
and `rsplitOnce` below. Fallible operations return `Except`.
-/

/-- Errors returned by `ImageSelector.parse`, mirroring the Rust enum
`ImageSelectorParseError`. `InvalidDigestFormat` carries the malformed
digest text that followed the first `@`. -/
inductive ImageSelectorParseError where
  | MissingRepository : ImageSelectorParseError
  | InvalidDigestFormat : List Char → ImageSelectorParseError
deriving DecidableEq, Repr

/-- A content-addressable digest, mirroring the Rust struct `ImageDigest`:
an algorithm name and a hash value. -/
structure ImageDigest where
  algorithm : List Char
  hash : List Char
deriving DecidableEq, Repr

/-- A parsed image reference, mirroring the Rust struct `ImageSelector`:
optional namespace, required repository, optional tag, optional digest. -/
structure ImageSelector where
  «namespace» : Option (List Char)
  repository : List Char
  tag : Option (List Char)
  digest : Option ImageDigest
deriving DecidableEq, Repr

/-- Model of Rust `str::split_once(c)`: split at the first occurrence of `c`,
returning the parts before and after it, or `none` when `c` does not occur. -/
def splitOnce (c : Char) : List Char → Option (List Char × List Char)
  | [] => none
  | x :: xs =>
    if x = c then some ([], xs)
    else
      match splitOnce c xs with
      | some (a, b) => some (x :: a, b)
      | none => none

/-- Model of Rust `str::rsplit_once(c)`: split at the last occurrence of `c`,
returning the parts before and after it, or `none` when `c` does not occur. -/
def rsplitOnce (c : Char) (s : List Char) : Option (List Char × List Char) :=
  match splitOnce c s.reverse with
  | some (b, a) => some (a.reverse, b.reverse)
  | none => none

/-- First stage of `ImageSelector::parse`: the digest split. If the input
contains `@`, split at the first `@`; the part after it must be
`algorithm=hash` with both sides non-empty, else the parse fails with
`InvalidDigestFormat` carrying that part. Returns the text before the `@`
(or the whole input) together with the optional digest. -/
def parseDigest (s : List Char) :
    Except ImageSelectorParseError (List Char × Option ImageDigest) :=
  match splitOnce '@' s with
  | some (rest, digestRef) =>
    match splitOnce '=' digestRef with
    | some (algo, hash) =>
      if algo.isEmpty || hash.isEmpty then
        Except.error (ImageSelectorParseError.InvalidDigestFormat digestRef)
      else
        Except.ok (rest, some ⟨algo, hash⟩)
    | none => Except.error (ImageSelectorParseError.InvalidDigestFormat digestRef)
  | none => Except.ok (s, none)

/-- Second stage of `ImageSelector::parse`: the tag split at the last `:`,
if any. -/
def splitTag (s : List Char) : List Char × Option (List Char) :=
  match rsplitOnce ':' s with
  | some (rest, tag) => (rest, some tag)
  | none => (s, none)

/-- Third stage of `ImageSelector::parse`: the namespace split at the last
`/`, if any. -/
def splitNamespace (s : List Char) : Option (List Char) × List Char :=
  match rsplitOnce '/' s with
  | some (ns, rest) => (some ns, rest)
  | none => (none, s)

/-- Model of `ImageSelector::parse`: digest split at the first `@`, then tag
split at the last `:`, then namespace split at the last `/`, then the
required check that the remaining repository text is non-empty. -/
def ImageSelector.parse (s : List Char) :
    Except ImageSelectorParseError ImageSelector :=
  match parseDigest s with
  | Except.error e => Except.error e
  | Except.ok (s₁, digest) =>
    let (s₂, tag) := splitTag s₁
    let (ns, s₃) := splitNamespace s₂
    if s₃.isEmpty then
      Except.error ImageSelectorParseError.MissingRepository
    else
      Except.ok ⟨ns, s₃, tag, digest⟩

/-- The reconstruction `[namespace/]repository[:tag][@algorithm=hash]`
described by the spec: each optional part is included exactly when present,
and an empty tag renders as a trailing `:`. -/
def ImageSelector.render (sel : ImageSelector) : List Char :=
  (match sel.«namespace» with
   | some n => n ++ ['/']
   | none => []) ++
  sel.repository ++
  (match sel.tag with
   | some t => ':' :: t
   | none => []) ++
  (match sel.digest with
   | some d => '@' :: (d.algorithm ++ '=' :: d.hash)
   | none => [])

mutual

/-- The base of a container, mirroring the Rust enum `ContainerBase`:
either an external image reference or a reference to another container. -/
inductive ContainerBase where
  | External : ImageSelector → ContainerBase
  | Internal : Container → ContainerBase

/-- A container, mirroring the Rust struct `Container`: a single `base`
field. The shared `Arc<RwLock<_>>` handle is modelled by direct nesting,
which is value-faithful since no mutation operation exists. -/
inductive Container where
  | mk : ContainerBase → Container

end

/-- Model of `ContainerBase::try_from(&str)`: parse the string and wrap the
selector into the `External` variant, propagating parse errors. -/
def ContainerBase.try_from (s : List Char) :
    Except ImageSelectorParseError ContainerBase :=
  match ImageSelector.parse s with
  | Except.ok sel => Except.ok (ContainerBase.External sel)
  | Except.error e => Except.error e

/-- Model of `Container::from_str`: build the base via
`ContainerBase::try_from` and wrap it into a `Container`, propagating
errors. -/
def Container.from_str (s : List Char) :
    Except ImageSelectorParseError Container :=
  match ContainerBase.try_from s with
  | Except.ok base => Except.ok (Container.mk base)
  | Except.error e => Except.error e

/-- The rendered description of each parse error, from the `#[error(...)]`
attributes on the Rust enum. -/
def ImageSelectorParseError.message : ImageSelectorParseError → List Char
  | ImageSelectorParseError.MissingRepository => "Missing image repository".data
  | ImageSelectorParseError.InvalidDigestFormat d =>
      "Invalid digest format: ".data ++ d

/-- The abort message of the panicking `From<&str> for Container` path:
`Failed to parse image reference '<input>': <error description>`. The
apostrophes are written as `Char.ofNat 39`. -/
def panicMessage (input : List Char) (e : ImageSelectorParseError) : List Char :=
  "Failed to parse image reference ".data ++
    Char.ofNat 39 :: (input ++ Char.ofNat 39 :: ':' :: ' ' :: e.message)

/-- Model of the panicking `impl From<&str> for Container`: on parse success
it yields the container, on parse failure it aborts, modelled as an
`Except.error` carrying the panic message. -/
def Container.fromString (s : List Char) : Except (List Char) Container :=
  match Container.from_str s with
  | Except.ok c => Except.ok c
  | Except.error e => Except.error (panicMessage s e)

/-- Model of `Container::from(&Arc<RwLock<Container>>)` composed with the
`Container::from` factory: wrap an existing container node as the `Internal`
base of a new container. -/
def Container.wrap (c : Container) : Container :=
  Container.mk (ContainerBase.Internal c)

/-- A chain built by applying the wrap-existing-container construction `n`
times to a starting container. -/
def Container.chain (c : Container) : Nat → Container
  | 0 => c
  | n + 1 => Container.wrap (Container.chain c n)

mutual

/-- Number of `Internal` links followed when traversing from a container to
its `External` leaf. Totality of this definition is the termination of the
traversal. -/
def Container.hops : Container → Nat
  | Container.mk b => ContainerBase.hops b

/-- Hop count of a container base. -/
def ContainerBase.hops : ContainerBase → Nat
  | ContainerBase.External _ => 0
  | ContainerBase.Internal c => Container.hops c + 1

end

mutual

/-- Number of `External` leaves reachable from a container. -/
def Container.externalLeaves : Container → Nat
  | Container.mk b => ContainerBase.externalLeaves b

/-- Number of `External` leaves reachable from a container base. -/
def ContainerBase.externalLeaves : ContainerBase → Nat
  | ContainerBase.External _ => 1
  | ContainerBase.Internal c => Container.externalLeaves c

end

mutual

/-- The image selector at the `External` leaf reached by traversal. -/
def Container.leaf : Container → ImageSelector
  | Container.mk b => ContainerBase.leaf b

/-- The image selector at the `External` leaf of a container base. -/
def ContainerBase.leaf : ContainerBase → ImageSelector
  | ContainerBase.External sel => sel
  | ContainerBase.Internal c => Container.leaf c

end

/-! ### Properties of the split helpers -/

theorem splitOnce_eq_none_iff (c : Char) (s : List Char) :
    splitOnce c s = none ↔ c ∉ s := by
  induction s with
  | nil => simp [splitOnce]
  | cons x xs ih =>
    simp only [splitOnce]
    by_cases hx : x = c
    · subst hx
      simp
    · cases h : splitOnce c xs with
      | none =>
        have hxs : c ∉ xs := ih.mp h
        have hcx : ¬ c = x := fun hh => hx hh.symm
        simp [if_neg hx, hcx, hxs]
      | some p =>
        obtain ⟨a, b⟩ := p
        have hmem : c ∈ xs := by
          by_contra hc
          rw [ih.mpr hc] at h
          exact Option.noConfusion h
        simp [hx, List.mem_cons, hmem]

theorem splitOnce_eq_some (c : Char) (s : List Char) :
    ∀ a b, splitOnce c s = some (a, b) → s = a ++ c :: b ∧ c ∉ a := by
  induction s with
  | nil => intro a b h; exact Option.noConfusion h
  | cons x xs ih =>
    intro a b h
    simp only [splitOnce] at h
    by_cases hx : x = c
    · rw [if_pos hx] at h
      obtain ⟨rfl, rfl⟩ : ([] : List Char) = a ∧ xs = b := by
        injection h with h'
        injection h' with h1 h2
        exact ⟨h1, h2⟩
      subst hx
      simp
    · rw [if_neg hx] at h
      cases hs : splitOnce c xs with
      | none => rw [hs] at h; exact Option.noConfusion h
      | some p =>
        obtain ⟨a', b'⟩ := p
        rw [hs] at h
        obtain ⟨rfl, rfl⟩ : x :: a' = a ∧ b' = b := by
          injection h with h'
          injection h' with h1 h2
          exact ⟨h1, h2⟩
        obtain ⟨hxs, hca⟩ := ih a' b' hs
        refine ⟨by rw [hxs]; rfl, ?_⟩
        simp only [List.mem_cons]
        rintro (rfl | hmem)
        · exact hx rfl
        · exact hca hmem

theorem splitOnce_append (c : Char) (a b : List Char) (ha : c ∉ a) :
    splitOnce c (a ++ c :: b) = some (a, b) := by
  induction a with
  | nil => simp [splitOnce]
  | cons x xs ih =>
    have hx : ¬ x = c := by
      rintro rfl
      exact ha (List.mem_cons_self x xs)
    have hxs : c ∉ xs := fun hmem => ha (List.mem_cons_of_mem x hmem)
    simp only [List.cons_append, splitOnce, List.append_eq, if_neg hx, ih hxs]

theorem rsplitOnce_eq_none_iff (c : Char) (s : List Char) :
    rsplitOnce c s = none ↔ c ∉ s := by
  cases h : splitOnce c s.reverse with
  | none =>
    have hc : c ∉ s := by
      have := (splitOnce_eq_none_iff c s.reverse).mp h
      simpa [List.mem_reverse] using this
    simp [rsplitOnce, h, hc]
  | some p =>
    obtain ⟨b, a⟩ := p
    have hs := (splitOnce_eq_some c s.reverse b a h).1
    have hc : c ∈ s := by
      have hrev : c ∈ s.reverse := by
        rw [hs]; exact List.mem_append_right b (List.mem_cons_self c a)
      simpa [List.mem_reverse] using hrev
    simp [rsplitOnce, h, hc]

theorem rsplitOnce_eq_some (c : Char) (s a b : List Char)
    (h : rsplitOnce c s = some (a, b)) : s = a ++ c :: b ∧ c ∉ b := by
  cases hs : splitOnce c s.reverse with
  | none => simp [rsplitOnce, hs] at h
  | some p =>
    obtain ⟨b', a'⟩ := p
    simp only [rsplitOnce, hs] at h
    obtain ⟨rfl, rfl⟩ : a'.reverse = a ∧ b'.reverse = b := by
      injection h with h'
      injection h' with h1 h2
      exact ⟨h1, h2⟩
    obtain ⟨h1, h2⟩ := splitOnce_eq_some c s.reverse b' a' hs
    constructor
    · have := congrArg List.reverse h1
      simpa [List.reverse_append] using this
    · simpa [List.mem_reverse] using h2

theorem rsplitOnce_append (c : Char) (a b : List Char) (hb : c ∉ b) :
    rsplitOnce c (a ++ c :: b) = some (a, b) := by
  have hrev : (a ++ c :: b).reverse = b.reverse ++ c :: a.reverse := by
    simp [List.reverse_append]
  have hb' : c ∉ b.reverse := by simpa [List.mem_reverse] using hb
  simp [rsplitOnce, hrev, splitOnce_append c b.reverse a.reverse hb']

/-! ### Characterizations of the parse stages -/

theorem parseDigest_ok (s r : List Char) (dg : Option ImageDigest)
    (h : parseDigest s = Except.ok (r, dg)) :
    (dg = none ∧ r = s ∧ '@' ∉ s) ∨
      ∃ a b, dg = some ⟨a, b⟩ ∧ s = r ++ '@' :: (a ++ '=' :: b) ∧
        a ≠ [] ∧ b ≠ [] ∧ '@' ∉ r ∧ '=' ∉ a := by
  cases hat : splitOnce '@' s with
  | none =>
    simp only [parseDigest, hat] at h
    obtain ⟨rfl, rfl⟩ : s = r ∧ none = dg := by
      injection h with h'
      injection h' with h1 h2
      exact ⟨h1, h2⟩
    exact Or.inl ⟨rfl, rfl, (splitOnce_eq_none_iff '@' s).mp hat⟩
  | some p =>
    obtain ⟨rest, dref⟩ := p
    simp only [parseDigest, hat] at h
    cases heq : splitOnce '=' dref with
    | none =>
      simp only [heq] at h
      exact Except.noConfusion h
    | some q =>
      obtain ⟨a, b⟩ := q
      simp only [heq] at h
      by_cases hab : a.isEmpty || b.isEmpty
      · simp only [hab, if_true] at h
        exact Except.noConfusion h
      · simp only [hab, if_false] at h
        obtain ⟨rfl, rfl⟩ : rest = r ∧ (some ⟨a, b⟩ : Option ImageDigest) = dg := by
          injection h with h'
          injection h' with h1 h2
          exact ⟨h1, h2⟩
        obtain ⟨hs, hrest⟩ := splitOnce_eq_some '@' s rest dref hat
        obtain ⟨hdref, ha⟩ := splitOnce_eq_some '=' dref a b heq
        have hane : a ≠ [] := by
          intro hnil
          subst hnil
          simp at hab
        have hbne : b ≠ [] := by
          intro hnil
          subst hnil
          simp at hab
        exact Or.inr ⟨a, b, rfl, by rw [hs, hdref], hane, hbne, hrest, ha⟩

theorem parseDigest_error (s : List Char) (e : ImageSelectorParseError)
    (h : parseDigest s = Except.error e) :
    ∃ d, e = ImageSelectorParseError.InvalidDigestFormat d := by
  cases hat : splitOnce '@' s with
  | none =>
    simp only [parseDigest, hat] at h
    exact Except.noConfusion h
  | some p =>
    obtain ⟨rest, dref⟩ := p
    simp only [parseDigest, hat] at h
    cases heq : splitOnce '=' dref with
    | none =>
      simp only [heq] at h
      exact ⟨dref, (Except.error.inj h).symm⟩
    | some q =>
      obtain ⟨a, b⟩ := q
      simp only [heq] at h
      by_cases hab : a.isEmpty || b.isEmpty
      · simp only [hab, if_true] at h
        exact ⟨dref, (Except.error.inj h).symm⟩
      · simp [hab] at h

theorem splitTag_eq (s r : List Char) (tg : Option (List Char))
    (h : splitTag s = (r, tg)) :
    (tg = none ∧ r = s ∧ ':' ∉ s) ∨
      ∃ t, tg = some t ∧ s = r ++ ':' :: t ∧ ':' ∉ t := by
  cases hc : rsplitOnce ':' s with
  | none =>
    simp only [splitTag, hc] at h
    obtain ⟨rfl, rfl⟩ : s = r ∧ (none : Option (List Char)) = tg := by
      injection h with h1 h2
      exact ⟨h1, h2⟩
    exact Or.inl ⟨rfl, rfl, (rsplitOnce_eq_none_iff ':' s).mp hc⟩
  | some p =>
    obtain ⟨rest, t⟩ := p
    simp only [splitTag, hc] at h
    obtain ⟨rfl, rfl⟩ : rest = r ∧ (some t : Option (List Char)) = tg := by
      injection h with h1 h2
      exact ⟨h1, h2⟩
    obtain ⟨hs, ht⟩ := rsplitOnce_eq_some ':' s rest t hc
    exact Or.inr ⟨t, rfl, hs, ht⟩

theorem splitNamespace_eq (s rest : List Char) (ns : Option (List Char))
    (h : splitNamespace s = (ns, rest)) :
    (ns = none ∧ rest = s ∧ '/' ∉ s) ∨
      ∃ n, ns = some n ∧ s = n ++ '/' :: rest ∧ '/' ∉ rest := by
  cases hc : rsplitOnce '/' s with
  | none =>
    simp only [splitNamespace, hc] at h
    obtain ⟨rfl, rfl⟩ : (none : Option (List Char)) = ns ∧ s = rest := by
      injection h with h1 h2
      exact ⟨h1, h2⟩
    exact Or.inl ⟨rfl, rfl, (rsplitOnce_eq_none_iff '/' s).mp hc⟩
  | some p =>
    obtain ⟨n, r⟩ := p
    simp only [splitNamespace, hc] at h
    obtain ⟨rfl, rfl⟩ : (some n : Option (List Char)) = ns ∧ r = rest := by
      injection h with h1 h2
      exact ⟨h1, h2⟩
    obtain ⟨hs, hr⟩ := rsplitOnce_eq_some '/' s n r hc
    exact Or.inr ⟨n, rfl, hs, hr⟩

/-! ### Shape of parse results -/

theorem render_of_parse_ok (s : List Char) (sel : ImageSelector)
    (h : ImageSelector.parse s = Except.ok sel) : sel.render = s := by
  cases hd : parseDigest s with
  | error e =>
    simp only [ImageSelector.parse, hd] at h
    exact Except.noConfusion h
  | ok p =>
    obtain ⟨s₁, dg⟩ := p
    rcases ht : splitTag s₁ with ⟨s₂, tg⟩
    rcases hn : splitNamespace s₂ with ⟨ns, s₃⟩
    simp only [ImageSelector.parse, hd, ht, hn] at h
    by_cases he : s₃.isEmpty
    · simp only [he, if_true] at h
      exact Except.noConfusion h
    · simp only [he, if_false] at h
      have hsel : sel = ⟨ns, s₃, tg, dg⟩ := (Except.ok.inj h).symm
      subst hsel
      rcases parseDigest_ok s s₁ dg hd with ⟨rfl, rfl, -⟩ |
        ⟨a, b, rfl, hs, -, -, -, -⟩ <;>
      rcases splitTag_eq s₁ s₂ tg ht with ⟨rfl, rfl, -⟩ | ⟨t, rfl, ht', -⟩ <;>
      rcases splitNamespace_eq s₂ s₃ ns hn with ⟨rfl, rfl, -⟩ | ⟨n, rfl, hn', -⟩ <;>
      simp_all [ImageSelector.render, List.append_assoc]

theorem parse_invalid_iff (s d : List Char) :
    ImageSelector.parse s =
        Except.error (ImageSelectorParseError.InvalidDigestFormat d) ↔
      parseDigest s =
        Except.error (ImageSelectorParseError.InvalidDigestFormat d) := by
  cases hd : parseDigest s with
  | error e => simp [ImageSelector.parse, hd]
  | ok p =>
    obtain ⟨s₁, dg⟩ := p
    rcases ht : splitTag s₁ with ⟨s₂, tg⟩
    rcases hn : splitNamespace s₂ with ⟨ns, s₃⟩
    by_cases he : s₃.isEmpty
    · simp [ImageSelector.parse, hd, ht, hn, he]
    · simp [ImageSelector.parse, hd, ht, hn, he]

theorem parse_missingRepository_shape (s : List Char) :
    ImageSelector.parse s = Except.error ImageSelectorParseError.MissingRepository ↔
      ∃ r dg, parseDigest s = Except.ok (r, dg) ∧
        (splitNamespace (splitTag r).1).2 = [] := by
  cases hd : parseDigest s with
  | error e =>
    obtain ⟨d, rfl⟩ := parseDigest_error s e hd
    simp [ImageSelector.parse, hd]
  | ok p =>
    obtain ⟨s₁, dg⟩ := p
    rcases ht : splitTag s₁ with ⟨s₂, tg⟩
    rcases hn : splitNamespace s₂ with ⟨ns, s₃⟩
    by_cases he : s₃.isEmpty
    · have h3 : s₃ = [] := List.isEmpty_iff.mp he
      subst h3
      simp [ImageSelector.parse, hd, ht, hn, he]
    · have hne : s₃ ≠ [] := fun hh => he (List.isEmpty_iff.mpr hh)
      simp [ImageSelector.parse, hd, ht, hn, he, hne]

/-! ### Claim theorems -/

/-- C1: for every string on which `ImageSelector.parse` succeeds, rendering
the result as `[namespace/]repository[:tag][@algorithm=hash]` and parsing
the rendered string again succeeds and yields the very same `ImageSelector`;
in particular tag and digest are both still present and equal whenever both
were present in the first result. -/
theorem ImageSelector.parse_render_roundTrip (s : List Char)
    (sel : ImageSelector) (h : ImageSelector.parse s = Except.ok sel) :
    ImageSelector.parse sel.render = Except.ok sel := by
  rw [render_of_parse_ok s sel h]
  exact h

theorem ImageSelector.parse_render_roundTrip_witness :
    ImageSelector.parse
        (ImageSelector.render ⟨none, "ubuntu".data, some "latest".data,
          some ⟨"sha256".data, "a1".data⟩⟩) =
      Except.ok ⟨none, "ubuntu".data, some "latest".data,
        some ⟨"sha256".data, "a1".data⟩⟩ :=
  ImageSelector.parse_render_roundTrip "ubuntu:latest@sha256=a1".data _ (by rfl)

/-- C2: for every input containing `@`, the parse fails with
`InvalidDigestFormat` carrying exactly the substring after the first `@` if
and only if that substring has no `=`, or the part before its first `=` is
empty, or the part after its first `=` is empty. -/
theorem ImageSelector.parse_invalidDigestFormat_iff (s r d : List Char)
    (h : splitOnce '@' s = some (r, d)) :
    ImageSelector.parse s =
        Except.error (ImageSelectorParseError.InvalidDigestFormat d) ↔
      ('=' ∉ d ∨ ∃ a b, splitOnce '=' d = some (a, b) ∧ (a = [] ∨ b = [])) := by
  rw [parse_invalid_iff]
  cases heq : splitOnce '=' d with
  | none =>
    have hmem : '=' ∉ d := (splitOnce_eq_none_iff '=' d).mp heq
    simp [parseDigest, h, heq, hmem]
  | some q =>
    obtain ⟨a, b⟩ := q
    have hmem : '=' ∈ d := by
      rw [(splitOnce_eq_some '=' d a b heq).1]
      exact List.mem_append_right a (List.mem_cons_self '=' b)
    by_cases hab : a.isEmpty || b.isEmpty
    · have hab' : a = [] ∨ b = [] := by simpa using hab
      simp [parseDigest, h, heq, hab, hmem]
      exact ⟨a, b, ⟨rfl, rfl⟩, hab'⟩
    · have ha : a ≠ [] := fun hh => hab (by simp [hh])
      have hb : b ≠ [] := fun hh => hab (by simp [hh])
      simp [parseDigest, h, heq, hab, hmem, ha, hb]

theorem ImageSelector.parse_invalidDigestFormat_iff_witness :
    ImageSelector.parse "x@".data =
        Except.error (ImageSelectorParseError.InvalidDigestFormat []) ∧
    ImageSelector.parse "x@=h".data =
        Except.error (ImageSelectorParseError.InvalidDigestFormat "=h".data) ∧
    ImageSelector.parse "x@a=".data =
        Except.error (ImageSelectorParseError.InvalidDigestFormat "a=".data) ∧
    ImageSelector.parse "x@noequals".data =
        Except.error (ImageSelectorParseError.InvalidDigestFormat "noequals".data) :=
  ⟨(ImageSelector.parse_invalidDigestFormat_iff "x@".data "x".data []
      (by rfl)).mpr (Or.inl (by simp)),
   (ImageSelector.parse_invalidDigestFormat_iff "x@=h".data "x".data "=h".data
      (by rfl)).mpr (Or.inr ⟨[], "h".data, by rfl, Or.inl rfl⟩),
   (ImageSelector.parse_invalidDigestFormat_iff "x@a=".data "x".data "a=".data
      (by rfl)).mpr (Or.inr ⟨"a".data, [], by rfl, Or.inr rfl⟩),
   (ImageSelector.parse_invalidDigestFormat_iff "x@noequals".data "x".data
      "noequals".data (by rfl)).mpr (Or.inl (by decide))⟩

/-- C3: the parse returns `MissingRepository` exactly when the digest split
succeeds and the tag and namespace splits leave an empty repository
candidate; in particular the inputs `""`, `"namespace/"`, `":tag"` and
`"@sha256=hash"` all yield `MissingRepository`. -/
theorem ImageSelector.parse_missingRepository_iff :
    (∀ s : List Char,
      ImageSelector.parse s =
          Except.error ImageSelectorParseError.MissingRepository ↔
        ∃ r dg, parseDigest s = Except.ok (r, dg) ∧
          (splitNamespace (splitTag r).1).2 = []) ∧
    ImageSelector.parse [] =
        Except.error ImageSelectorParseError.MissingRepository ∧
    ImageSelector.parse "namespace/".data =
        Except.error ImageSelectorParseError.MissingRepository ∧
    ImageSelector.parse ":tag".data =
        Except.error ImageSelectorParseError.MissingRepository ∧
    ImageSelector.parse "@sha256=hash".data =
        Except.error ImageSelectorParseError.MissingRepository :=
  ⟨parse_missingRepository_shape, rfl, rfl, rfl, rfl⟩

/-- C4: every non-empty string containing none of `@`, `:`, `/` parses
successfully to a selector with no namespace, no tag, no digest, and the
whole input as repository. -/
theorem ImageSelector.parse_plain (s : List Char) (hne : s ≠ [])
    (h1 : '@' ∉ s) (h2 : ':' ∉ s) (h3 : '/' ∉ s) :
    ImageSelector.parse s = Except.ok ⟨none, s, none, none⟩ := by
  have hd : parseDigest s = Except.ok (s, none) := by
    simp [parseDigest, (splitOnce_eq_none_iff '@' s).mpr h1]
  have ht : splitTag s = (s, none) := by
    simp [splitTag, (rsplitOnce_eq_none_iff ':' s).mpr h2]
  have hn : splitNamespace s = (none, s) := by
    simp [splitNamespace, (rsplitOnce_eq_none_iff '/' s).mpr h3]
  have hemp : s.isEmpty = false := by
    cases s with
    | nil => exact absurd rfl hne
    | cons c cs => rfl
  simp [ImageSelector.parse, hd, ht, hn, hemp]

theorem ImageSelector.parse_plain_witness :
    ImageSelector.parse "ubuntu".data =
      Except.ok ⟨none, "ubuntu".data, none, none⟩ :=
  ImageSelector.parse_plain "ubuntu".data (by decide) (by decide) (by decide)
    (by decide)

/-- C5: the tag splits at the last colon and the namespace at the last slash
of the remaining text: `"a:b:c"` gives repository `"a:b"` and tag `"c"`;
`"a/b/c:tag"` gives namespace `"a/b"`, repository `"c"`, tag `"tag"`;
`"ubuntu@sha256=ab01"` gives digest algorithm `"sha256"`, hash `"ab01"`,
and no tag. -/
theorem ImageSelector.parse_splitting_examples :
    ImageSelector.parse "a:b:c".data =
        Except.ok ⟨none, "a:b".data, some "c".data, none⟩ ∧
    ImageSelector.parse "a/b/c:tag".data =
        Except.ok ⟨some "a/b".data, "c".data, some "tag".data, none⟩ ∧
    ImageSelector.parse "ubuntu@sha256=ab01".data =
        Except.ok ⟨none, "ubuntu".data, none,
          some ⟨"sha256".data, "ab01".data⟩⟩ :=
  ⟨rfl, rfl, rfl⟩

/-- C6: `Container.from_str` succeeds exactly when `ImageSelector.parse`
does, wrapping the parsed selector into an `External` base on success and
returning the very same parse error on failure. -/
theorem Container.from_str_equiv_parse (s : List Char) :
    Container.from_str s =
      (ImageSelector.parse s).map
        fun sel => Container.mk (ContainerBase.External sel) := by
  cases h : ImageSelector.parse s with
  | ok sel =>
    simp [Container.from_str, ContainerBase.try_from, h, Except.map]
  | error e =>
    simp [Container.from_str, ContainerBase.try_from, h, Except.map]

/-- C7: the convenience constructor aborts exactly on the inputs on which
`ImageSelector.parse` fails, with a panic message embedding the original
input and the stringified parse error, and succeeds on every input on which
the parse succeeds. -/
theorem Container.fromString_panic_spec (s : List Char) :
    (∀ e, ImageSelector.parse s = Except.error e →
      Container.fromString s = Except.error (panicMessage s e)) ∧
    (∀ sel, ImageSelector.parse s = Except.ok sel →
      Container.fromString s =
        Except.ok (Container.mk (ContainerBase.External sel))) := by
  constructor
  · intro e he
    simp [Container.fromString, Container.from_str, ContainerBase.try_from, he]
  · intro sel hsel
    simp [Container.fromString, Container.from_str, ContainerBase.try_from,
      hsel]

theorem Container.fromString_panic_spec_witness :
    Container.fromString "x@".data =
        Except.error (panicMessage "x@".data
          (ImageSelectorParseError.InvalidDigestFormat [])) ∧
    Container.fromString "ubuntu".data =
        Except.ok (Container.mk (ContainerBase.External
          ⟨none, "ubuntu".data, none, none⟩)) :=
  ⟨(Container.fromString_panic_spec "x@".data).1
      (ImageSelectorParseError.InvalidDigestFormat []) (by rfl),
   (Container.fromString_panic_spec "ubuntu".data).2
      ⟨none, "ubuntu".data, none, none⟩ (by rfl)⟩

/-- C8: a chain built from an `External` base by wrapping `n` times
traverses in exactly `n` hops, reaches exactly one `External` leaf, and
that leaf holds the original selector; totality of the traversal functions
is its termination. -/
theorem Container.chain_hops_leaf (sel : ImageSelector) (n : Nat) :
    Container.hops
        (Container.chain (Container.mk (ContainerBase.External sel)) n) = n ∧
    Container.externalLeaves
        (Container.chain (Container.mk (ContainerBase.External sel)) n) = 1 ∧
    Container.leaf
        (Container.chain (Container.mk (ContainerBase.External sel)) n) =
      sel := by
  induction n with
  | zero =>
    simp [Container.chain, Container.hops, ContainerBase.hops,
      Container.externalLeaves, ContainerBase.externalLeaves, Container.leaf,
      ContainerBase.leaf]
  | succ n ih =>
    obtain ⟨ih1, ih2, ih3⟩ := ih
    simp [Container.chain, Container.wrap, Container.hops, ContainerBase.hops,
      Container.externalLeaves, ContainerBase.externalLeaves, Container.leaf,
      ContainerBase.leaf, ih1, ih2, ih3]

/-- C9: parsing is lossless; rendering the parsed fields back with their
delimiters reproduces the input character for character. -/
theorem ImageSelector.parse_lossless (s : List Char) (sel : ImageSelector)
    (h : ImageSelector.parse s = Except.ok sel) :
    sel.render = s :=
  render_of_parse_ok s sel h

theorem ImageSelector.parse_lossless_witness :
    ImageSelector.render
        ⟨some "a/b".data, "c".data, some "tag".data, none⟩ =
      "a/b/c:tag".data :=
  ImageSelector.parse_lossless "a/b/c:tag".data _ (by rfl)

/-- C10: an empty namespace is accepted: a slash followed by a plain
non-empty repository parses to namespace `some []` (the empty string, not
`none`), even though the analogous tag-only and digest-only inputs fail
with `MissingRepository`. -/
theorem ImageSelector.parse_empty_namespace (x : List Char) (hne : x ≠ [])
    (h1 : '@' ∉ x) (h2 : ':' ∉ x) (h3 : '/' ∉ x) :
    ImageSelector.parse ('/' :: x) = Except.ok ⟨some [], x, none, none⟩ ∧
    ImageSelector.parse ":tag".data =
        Except.error ImageSelectorParseError.MissingRepository ∧
    ImageSelector.parse "@sha256=hash".data =
        Except.error ImageSelectorParseError.MissingRepository := by
  refine ⟨?_, rfl, rfl⟩
  have h1' : '@' ∉ '/' :: x := by
    intro hmem
    rcases List.mem_cons.mp hmem with hh | hh
    · exact absurd hh (by decide)
    · exact h1 hh
  have h2' : ':' ∉ '/' :: x := by
    intro hmem
    rcases List.mem_cons.mp hmem with hh | hh
    · exact absurd hh (by decide)
    · exact h2 hh
  have hd : parseDigest ('/' :: x) = Except.ok ('/' :: x, none) := by
    simp [parseDigest, (splitOnce_eq_none_iff '@' _).mpr h1']
  have ht : splitTag ('/' :: x) = ('/' :: x, none) := by
    simp [splitTag, (rsplitOnce_eq_none_iff ':' _).mpr h2']
  have hn : splitNamespace ('/' :: x) = (some [], x) := by
    have hr := rsplitOnce_append '/' [] x h3
    simp only [List.nil_append] at hr
    simp [splitNamespace, hr]
  have hemp : x.isEmpty = false := by
    cases x with
    | nil => exact absurd rfl hne
    | cons c cs => rfl
  simp [ImageSelector.parse, hd, ht, hn, hemp]

theorem ImageSelector.parse_empty_namespace_witness :
    ImageSelector.parse ('/' :: "x".data) =
      Except.ok ⟨some [], "x".data, none, none⟩ :=
  (ImageSelector.parse_empty_namespace "x".data (by decide) (by decide)
    (by decide) (by decide)).1
